import Mathlib

/-!
Verification of the LLM client healing pipeline
(`v2/backend/python/app/llm/client.py`).

The development shallowly embeds the three pieces of the module that carry
the control-flow complexity:

* `process_with_healing` — the bounded analyze / generate / validate / heal
  repair loop (`LLMClient.process_with_healing`);
* `generate_content` — the rate-limited retry loop around a single remote
  model call (`LLMClient._generate_content`);
* `clean_response` — markdown-fence stripping of model output
  (`LLMClient._clean_response`).

The remote model is a black box: each stage call cleans and JSON-parses one
model response, so from the orchestrator the observable behaviour of a stage
call is either a parsed JSON value or a raised exception.  An `Oracle` fixes
the outcome of the n-th call of each stage; the orchestrator definitions are
then a direct transcription of the Python control flow over that oracle.
JSON values are modelled by `JsonValue`; Python dictionary lookups with
defaults (`dict.get`) and Python truthiness tests are modelled explicitly.
-/

namespace SageAi

/-- A parsed JSON value, as produced by `json.loads`.  `null` doubles as the
Python value `None` (exactly as `json.loads` maps JSON null to `None`).
Numbers are modelled by integers; no decision made by the client depends on
fractional values. -/
inductive JsonValue where
  | null
  | bool (b : Bool)
  | num (n : Int)
  | str (s : String)
  | arr (elems : List JsonValue)
  | obj (fields : List (String × JsonValue))

/-- Python truthiness (`bool(v)`) of a JSON value: `None`, `False`, `0`,
empty string, empty list and empty dict are falsy, everything else truthy. -/
def JsonValue.truthy : JsonValue → Bool
  | .null => false
  | .bool b => b
  | .num n => decide (n ≠ 0)
  | .str s => decide (s ≠ "")
  | .arr elems => !elems.isEmpty
  | .obj fields => !fields.isEmpty

/-- The Python test `v is None` (for values coming out of `json.loads`,
this holds exactly for JSON null). -/
def JsonValue.isNone : JsonValue → Bool
  | .null => true
  | _ => false

/-- Python `dict.get(key, default)` on a parsed JSON object, modelled as an
association list with distinct keys (the shape `json.loads` produces). -/
def objGetD (fields : List (String × JsonValue)) (key : String)
    (default : JsonValue) : JsonValue :=
  match fields with
  | [] => default
  | (k, v) :: rest => if k = key then v else objGetD rest key default

/-- Result of one stage call as the orchestrator observes it: either the
parsed value the stage returned, or a raised exception (remote failure after
retries, or a JSON parse failure, all wrapped by the stage in an
`HTTPException`). -/
inductive StageCall (α : Type) where
  | ok (value : α)
  | exn

/-- The behaviour of the remote model, abstracted per stage: the result of
the n-th `analyze_query`, `generate_query`, `validate_query` and
`heal_query` call of one `process_with_healing` run.  `generate_query`
returns a cleaned string (raw SQL text, never JSON-parsed); the other three
return parsed JSON. -/
structure Oracle where
  analyze : Nat → StageCall JsonValue
  generate : Nat → StageCall String
  validate : Nat → StageCall JsonValue
  heal : Nat → StageCall JsonValue

/-- The mutable loop state of `process_with_healing`, together with ghost
counters recording how many times each stage has been invoked.  The counters
are pure instrumentation: they are never read by the control flow. -/
structure LoopState where
  healing_attempts : Nat
  current_analysis : JsonValue
  current_query : JsonValue
  analyzeCalls : Nat
  generateCalls : Nat
  validateCalls : Nat
  healCalls : Nat

/-- The observable outcome of `process_with_healing`: a returned dictionary,
or an `HTTPException` raised through the outer handler. -/
inductive POutcome where
  | ok (result : JsonValue)
  | httpError

/-- Result of one iteration of the `while` body: terminate the whole call
(with the final state recording the stage-call counts), or continue looping
with the updated state. -/
inductive StepResult where
  | done (outcome : POutcome) (final : LoopState)
  | cont (next : LoopState)

/-- The success dictionary returned by `process_with_healing`. -/
def successDict (query analysis validation : JsonValue)
    (healing_attempts : Nat) : JsonValue :=
  .obj [("success", .bool true), ("query", query), ("analysis", analysis),
        ("validation", validation), ("healing_attempts", .num healing_attempts)]

/-- The human-review failure dictionary returned by `process_with_healing`. -/
def humanReviewDict (validation : JsonValue) (healing_attempts : Nat)
    (notes : JsonValue) : JsonValue :=
  .obj [("success", .bool false), ("error", .str "Query requires human review"),
        ("validation", validation), ("healing_attempts", .num healing_attempts),
        ("notes", notes)]

/-- The attempts-exhausted failure dictionary returned by
`process_with_healing`. -/
def exhaustedDict (healing_attempts : Nat) : JsonValue :=
  .obj [("success", .bool false), ("error", .str "Max healing attempts reached"),
        ("healing_attempts", .num healing_attempts)]

/-- The `except` clause of the loop body: increment `healing_attempts`; if
the budget is now consumed, re-raise (which the outer handler turns into an
`HTTPException`), otherwise continue looping. -/
def handleExn (maxAttempts : Nat) (s : LoopState) : StepResult :=
  let s2 := { s with healing_attempts := s.healing_attempts + 1 }
  if s2.healing_attempts ≥ maxAttempts then .done .httpError s2 else .cont s2

/-- The healing section of the loop body.  On entry `s.healing_attempts` has
already been incremented (line `healing_attempts += 1` precedes the
`heal_query` call) and `validation` holds the failed validation result.
Mirrors: call `heal_query`; on `requires_human_review` return the
human-review dictionary; else on `requires_reanalysis` clear the analysis
and continue; else overwrite `current_query` with `healed_query` (default
`None`) and continue.  A non-dict healing result makes `dict.get` raise,
landing in the `except` clause. -/
def healStep (o : Oracle) (maxAttempts : Nat) (validation : JsonValue)
    (s : LoopState) : StepResult :=
  match o.heal s.healCalls with
  | .exn => handleExn maxAttempts { s with healCalls := s.healCalls + 1 }
  | .ok healing =>
    let s2 := { s with healCalls := s.healCalls + 1 }
    match healing with
    | .obj fields =>
      if (objGetD fields "requires_human_review" (.bool false)).truthy then
        .done (.ok (humanReviewDict validation s2.healing_attempts
          (objGetD fields "notes" (.str "")))) s2
      else if (objGetD fields "requires_reanalysis" (.bool false)).truthy then
        .cont { s2 with current_analysis := .null }
      else
        .cont { s2 with current_query := objGetD fields "healed_query" .null }
    | _ => handleExn maxAttempts s2

/-- The validation section of the loop body.  On entry `current_query`
holds the freshly generated query.  Mirrors: call `validate_query`; if
`validation.get("isValid", False)` is truthy return the success dictionary;
otherwise increment `healing_attempts` and heal.  A non-dict validation
result makes `dict.get` raise, landing in the `except` clause. -/
def validateStep (o : Oracle) (maxAttempts : Nat) (s : LoopState) : StepResult :=
  match o.validate s.validateCalls with
  | .exn => handleExn maxAttempts { s with validateCalls := s.validateCalls + 1 }
  | .ok validation =>
    let s2 := { s with validateCalls := s.validateCalls + 1 }
    match validation with
    | .obj fields =>
      if (objGetD fields "isValid" (.bool false)).truthy then
        .done (.ok (successDict s2.current_query s2.current_analysis
          validation s2.healing_attempts)) s2
      else
        healStep o maxAttempts validation
          { s2 with healing_attempts := s2.healing_attempts + 1 }
    | _ => handleExn maxAttempts s2

/-- The part of the loop body after the analysis is in hand: the query is
regenerated unconditionally (`current_query = await self.generate_query(...)`)
and then validated. -/
def afterAnalysis (o : Oracle) (maxAttempts : Nat) (s : LoopState) : StepResult :=
  match o.generate s.generateCalls with
  | .exn => handleExn maxAttempts { s with generateCalls := s.generateCalls + 1 }
  | .ok q =>
    validateStep o maxAttempts
      { s with current_query := .str q, generateCalls := s.generateCalls + 1 }

/-- One iteration of the `while healing_attempts < max_healing_attempts`
body, with the surrounding `try/except`: if no analysis is held, run
`analyze_query` first; then generate, validate and (if needed) heal.  Any
stage exception is routed through `handleExn`. -/
def loopBody (o : Oracle) (maxAttempts : Nat) (s : LoopState) : StepResult :=
  if s.current_analysis.isNone then
    match o.analyze s.analyzeCalls with
    | .exn => handleExn maxAttempts { s with analyzeCalls := s.analyzeCalls + 1 }
    | .ok a =>
      afterAnalysis o maxAttempts
        { s with current_analysis := a, analyzeCalls := s.analyzeCalls + 1 }
  else afterAnalysis o maxAttempts s

/-- The `while` loop of `process_with_healing`, driven by fuel.  Every
continuing iteration strictly increases `healing_attempts`
(`loopBody_cont_attempts_lt` below), so with initial fuel
`max_healing_attempts` the fuel never runs out before the loop guard turns
false (`processLoop_fuel_irrelevant` below); the zero-fuel clause returns
the same dictionary as the guard-false clause, keeping the function total
without changing its value on reachable states. -/
def processLoop (o : Oracle) (maxAttempts : Nat) :
    Nat → LoopState → POutcome × LoopState
  | 0, s => (.ok (exhaustedDict s.healing_attempts), s)
  | fuel + 1, s =>
    if s.healing_attempts < maxAttempts then
      match loopBody o maxAttempts s with
      | .done outcome final => (outcome, final)
      | .cont s2 => processLoop o maxAttempts fuel s2
    else (.ok (exhaustedDict s.healing_attempts), s)

/-- The initial loop state: zero attempts, no analysis, no query
(`current_analysis = None`, `current_query = None`). -/
def initState : LoopState := ⟨0, .null, .null, 0, 0, 0, 0⟩

/-- `LLMClient.process_with_healing(question, schema, max_healing_attempts)`.
The question and schema only feed the prompts of the individual stage calls,
whose observable results the `Oracle` fixes; hence they do not appear as
separate parameters. -/
def process_with_healing (o : Oracle) (maxAttempts : Nat) :
    POutcome × LoopState :=
  processLoop o maxAttempts maxAttempts initState

/-!
## `_generate_content`: the retry loop around one remote model call

The remote call of one attempt either raises (network failure, timeout, …)
— modelled by `Except.error cause` — or returns text, modelled by
`Except.ok text`.  The side effects the spec talks about (applying the rate
limiter before every attempt, sleeping one second between attempts) are
recorded as an event trace.
-/

/-- One observable effect of `_generate_content`: a `_handle_rate_limit()`
call, the model invocation of a given attempt, or an `asyncio.sleep`
of the given number of seconds. -/
inductive GenEvent where
  | rateLimit
  | modelCall (attempt : Nat)
  | sleep (seconds : Nat)
deriving DecidableEq

/-- The observable outcome of `_generate_content`: returned text, a raised
exception carrying the cause message, or the implicit `None` return when
`max_retries` is zero and the `for` loop body never runs. -/
inductive GenOutcome where
  | ok (text : String)
  | raised (cause : String)
  | noneReturn
deriving DecidableEq

/-- Whether one attempt fails, and with which cause: a raised call is a
failure with its own cause; returned empty text is a failure with the
`ValueError("Empty response from LLM")` cause; non-empty text is a success. -/
def failCause : Except String String → Option String
  | .error c => some c
  | .ok t => if t = "" then some "Empty response from LLM" else none

/-- The `for attempt in range(max_retries)` loop of `_generate_content`.
`remaining` is the number of iterations the `range` iterator has left; it
starts at `maxRetries` with `attempt = 0`, so `attempt + remaining =
maxRetries` throughout.  Each attempt first applies the rate limiter, then
invokes the model; empty text raises `ValueError` inside the `try`.  On a
failure the `except` clause re-raises if `attempt == max_retries - 1` and
otherwise sleeps 1 second and moves to the next attempt.  Falling off the
end of the loop (only possible when `maxRetries = 0`) returns `None`. -/
def generateContentLoop (model : Nat → Except String String)
    (maxRetries : Nat) : Nat → Nat → GenOutcome × List GenEvent
  | _attempt, 0 => (.noneReturn, [])
  | attempt, remaining + 1 =>
    match model attempt with
    | .ok t =>
      if t = "" then
        if attempt = maxRetries - 1 then
          (.raised "Empty response from LLM", [.rateLimit, .modelCall attempt])
        else
          let rest := generateContentLoop model maxRetries (attempt + 1) remaining
          (rest.1, .rateLimit :: .modelCall attempt :: .sleep 1 :: rest.2)
      else (.ok t, [.rateLimit, .modelCall attempt])
    | .error c =>
      if attempt = maxRetries - 1 then
        (.raised c, [.rateLimit, .modelCall attempt])
      else
        let rest := generateContentLoop model maxRetries (attempt + 1) remaining
        (rest.1, .rateLimit :: .modelCall attempt :: .sleep 1 :: rest.2)

/-- `LLMClient._generate_content(prompt)` with `max_retries = maxRetries`:
run the retry loop from attempt 0. -/
def generate_content (model : Nat → Except String String)
    (maxRetries : Nat) : GenOutcome × List GenEvent :=
  generateContentLoop model maxRetries 0 maxRetries

/-- The event trace of a run whose every attempt fails: rate limit then
model call for each attempt, with a 1-second sleep after every attempt but
the last.  (Same iteration scheme as `generateContentLoop`.) -/
def retryTraceFrom (maxRetries : Nat) : Nat → Nat → List GenEvent
  | _attempt, 0 => []
  | attempt, remaining + 1 =>
    if attempt = maxRetries - 1 then [.rateLimit, .modelCall attempt]
    else .rateLimit :: .modelCall attempt :: .sleep 1 ::
      retryTraceFrom maxRetries (attempt + 1) remaining

/-- The number of model invocations recorded in an event trace. -/
def countCalls (events : List GenEvent) : Nat :=
  events.countP fun e => match e with | .modelCall _ => true | _ => false

/-- The number of sleep events recorded in an event trace. -/
def countSleeps (events : List GenEvent) : Nat :=
  events.countP fun e => match e with | .sleep _ => true | _ => false

/-!
## `_clean_response`: markdown-fence stripping

Modelled over `List Char`.  `pyStrip` is Python `str.strip()` (ASCII
whitespace), `splitFirst sep s` scans `s` left to right for the first
occurrence of `sep`, returning the part before it and, if found, the
remainder after it — so `s.split(sep)[0] = (splitFirst sep s).1`,
`sep in s = (splitFirst sep s).2.isSome`, and when the separator occurs,
`s.split(sep)[1] = (splitFirst sep (splitFirst sep s).2.get).1`
(the part of the remainder before the next occurrence, or all of it).
-/

/-- The ASCII whitespace characters stripped by Python `str.strip()`. -/
def isSpaceChar (c : Char) : Bool :=
  c == ' ' || c == '\t' || c == '\n' || c == '\r' || c == '\x0b' || c == '\x0c'

/-- Strip trailing whitespace. -/
def rstrip (s : List Char) : List Char :=
  (s.reverse.dropWhile isSpaceChar).reverse

/-- Python `str.strip()`: drop leading and trailing whitespace. -/
def pyStrip (s : List Char) : List Char :=
  rstrip (s.dropWhile isSpaceChar)

/-- Scan for the first occurrence of `sep`: return the longest prefix with
no occurrence, and — when `sep` occurs — the remainder after that first
occurrence. -/
def splitFirst (sep : List Char) : List Char → List Char × Option (List Char)
  | [] => ([], none)
  | c :: cs =>
    if sep.isPrefixOf (c :: cs) then ([], some ((c :: cs).drop sep.length))
    else
      let r := splitFirst sep cs
      (c :: r.1, r.2)

/-- Python `sep in s` for a non-empty separator. -/
def hasSub (sep s : List Char) : Bool :=
  (splitFirst sep s).2.isSome

/-- The JSON-tagged fence marker. -/
def fenceJson : List Char := "```json".toList

/-- The plain fence marker. -/
def fence : List Char := "```".toList

/-- The backtick character (obtained from the fence marker). -/
def btChar : Char := fence.headD ' '

/-- `LLMClient._clean_response(response)`: strip, then if the text contains
a JSON-tagged fence extract `text.split("```json")[1].split("```")[0]`,
else if it contains any fence extract `text.split("```")[1].split("```")[0]`,
and strip the result.  The `except` clause of the source is unreachable for
string input (both indexings are guarded by the containment checks), so it
does not appear. -/
def clean_response (response : List Char) : List Char :=
  let text := pyStrip response
  match (splitFirst fenceJson text).2 with
  | some rest => pyStrip (splitFirst fence (splitFirst fenceJson rest).1).1
  | none =>
    match (splitFirst fence text).2 with
    | some rest => pyStrip (splitFirst fence (splitFirst fence rest).1).1
    | none => pyStrip text

/-!
## Concrete stage oracles used in the theorems

Representative model behaviours: a generic parsed analysis, valid/invalid
validation results, and healing results exercising each flag combination.
-/

/-- A generic parsed analysis value. -/
def sampleAnalysis : JsonValue := .obj [("query_type", .str "select")]

/-- A validation result with `isValid: false`. -/
def invalidVal : JsonValue := .obj [("isValid", .bool false)]

/-- A validation result with `isValid: true`. -/
def validVal : JsonValue := .obj [("isValid", .bool true)]

/-- A healing result patching the query, with both escalation flags false. -/
def healPatch (q : String) : JsonValue :=
  .obj [("requires_human_review", .bool false),
        ("requires_reanalysis", .bool false), ("healed_query", .str q)]

/-- Oracle for the healed-query trace: generation yields `G0` then `G1`,
the first validation fails, healing patches the query to `H` with no flags
set, and the second validation succeeds. -/
def oracleHealTrace : Oracle :=
  { analyze := fun _ => .ok sampleAnalysis
    generate := fun n => .ok (if n = 0 then "G0" else "G1")
    validate := fun n => if n = 0 then .ok invalidVal else .ok validVal
    heal := fun _ => .ok (healPatch "H") }

/-- Oracle whose every validation fails and whose every healing patches
without escalation. -/
def oracleAlwaysInvalid : Oracle :=
  { analyze := fun _ => .ok sampleAnalysis
    generate := fun _ => .ok "SELECT 1"
    validate := fun _ => .ok invalidVal
    heal := fun _ => .ok (healPatch "H") }

/-- Oracle whose first analysis call raises and whose remaining stages
succeed with a first-try valid query. -/
def oracleAnalyzeFailsOnce : Oracle :=
  { analyze := fun n => if n = 0 then .exn else .ok sampleAnalysis
    generate := fun _ => .ok "Q", validate := fun _ => .ok validVal
    heal := fun _ => .exn }

/-- Oracle whose first generation call raises and whose remaining stages
succeed with a first-try valid query. -/
def oracleGenerateFailsOnce : Oracle :=
  { analyze := fun _ => .ok sampleAnalysis
    generate := fun n => if n = 0 then .exn else .ok "Q"
    validate := fun _ => .ok validVal
    heal := fun _ => .exn }

/-- Oracle whose first validation call raises (e.g. a JSON parse failure)
and whose second validation succeeds. -/
def oracleValidateFailsOnce : Oracle :=
  { analyze := fun _ => .ok sampleAnalysis, generate := fun _ => .ok "Q"
    validate := fun n => if n = 0 then .exn else .ok validVal
    heal := fun _ => .exn }

/-- Oracle whose first validation is invalid, whose healing call raises,
and whose second validation succeeds. -/
def oracleHealFailsOnce : Oracle :=
  { analyze := fun _ => .ok sampleAnalysis, generate := fun _ => .ok "Q"
    validate := fun n => if n = 0 then .ok invalidVal else .ok validVal
    heal := fun _ => .exn }

/-- Oracle whose every stage call raises. -/
def oracleAllStagesFail : Oracle :=
  { analyze := fun _ => .exn, generate := fun _ => .exn
    validate := fun _ => .exn, heal := fun _ => .exn }

/-- Oracle whose validation always fails and whose healing requests human
review with `requires_reanalysis` also set. -/
def oracleHumanReview : Oracle :=
  { analyze := fun _ => .ok sampleAnalysis, generate := fun _ => .ok "Q"
    validate := fun _ => .ok invalidVal
    heal := fun _ => .ok (.obj [("requires_human_review", .bool true),
      ("requires_reanalysis", .bool true), ("notes", .str "N")]) }

/-- Oracle whose first validation fails, whose healing requests reanalysis,
and whose second validation succeeds. -/
def oracleReanalysis : Oracle :=
  { analyze := fun _ => .ok sampleAnalysis, generate := fun _ => .ok "Q"
    validate := fun n => if n = 0 then .ok invalidVal else .ok validVal
    heal := fun _ => .ok (.obj [("requires_reanalysis", .bool true)]) }

/-- Oracle in which the first `k` validations fail, validation `k`
succeeds, and every healing patches without escalation. -/
def oracleFirstK (k : Nat) : Oracle :=
  { analyze := fun _ => .ok sampleAnalysis, generate := fun _ => .ok "Q"
    validate := fun n => if n < k then .ok invalidVal else .ok validVal
    heal := fun _ => .ok (healPatch "H") }

/-- Oracle whose validation result carries `isValid: "false"` — a JSON
string, which is a truthy Python value. -/
def oracleTruthyIsValid : Oracle :=
  { analyze := fun _ => .ok sampleAnalysis, generate := fun _ => .ok "Q"
    validate := fun _ => .ok (.obj [("isValid", .str "false")])
    heal := fun _ => .exn }

/-- Oracle whose validation result lacks the `isValid` key entirely and
whose healing requests human review. -/
def oracleMissingIsValid : Oracle :=
  { analyze := fun _ => .ok sampleAnalysis, generate := fun _ => .ok "Q"
    validate := fun _ => .ok (.obj [("issues", .arr [])])
    heal := fun _ => .ok (.obj [("requires_human_review", .bool true),
      ("notes", .str "N")]) }

/-- Oracle whose validation fails and whose healing result is an empty JSON
object: every flag and the healed query are missing. -/
def oracleEmptyHeal : Oracle :=
  { analyze := fun _ => .ok sampleAnalysis, generate := fun _ => .ok "Q"
    validate := fun _ => .ok invalidVal
    heal := fun _ => .ok (.obj []) }

end SageAi

namespace SageAi

/-!
## Sanity of the fuel-driven loop

Every path of the loop body that continues the loop has executed
`healing_attempts += 1` at least once (either the pre-heal increment, or
the one in the `except` clause, or both), so `healing_attempts` strictly
increases on every continuing iteration.  Consequently the `while` guard
`healing_attempts < max_healing_attempts` admits at most
`max_healing_attempts` further iterations, and starting `processLoop` with
fuel `max_healing_attempts` computes the exact behaviour of the unbounded
`while` loop: the fuel-exhaustion clause is unreachable, as
`processLoop_fuel_irrelevant` makes precise.
-/

/-- Every continuing iteration of the healing loop strictly increases
`healing_attempts`. -/
theorem loopBody_cont_attempts_lt {o : Oracle} {maxAttempts : Nat}
    {s s2 : LoopState} (h : loopBody o maxAttempts s = .cont s2) :
    s.healing_attempts < s2.healing_attempts := by
  simp only [loopBody, afterAnalysis, validateStep, healStep, handleExn] at h
  repeat' split at h
  all_goals try (injection h with h2)
  all_goals try (subst h2)
  all_goals try (simp at h)
  all_goals simp
  all_goals omega

/-- Any fuel of at least `maxAttempts - healing_attempts` computes the same
result: the loop always terminates through its own guard, never through
fuel exhaustion.  In particular `process_with_healing` (fuel
`maxAttempts`, attempts 0) is fuel-independent. -/
theorem processLoop_fuel_irrelevant (o : Oracle) (maxAttempts : Nat) :
    ∀ fuel fuel2 s, maxAttempts - s.healing_attempts ≤ fuel →
      maxAttempts - s.healing_attempts ≤ fuel2 →
      processLoop o maxAttempts fuel s = processLoop o maxAttempts fuel2 s := by
  intro fuel
  induction fuel with
  | zero =>
    intro fuel2 s h1 h2
    cases fuel2 with
    | zero => rfl
    | succ f2 =>
      simp only [processLoop]
      rw [if_neg (by omega)]
  | succ f ih =>
    intro fuel2 s h1 h2
    cases fuel2 with
    | zero =>
      simp only [processLoop]
      rw [if_neg (by omega)]
    | succ f2 =>
      simp only [processLoop]
      by_cases hg : s.healing_attempts < maxAttempts
      · rw [if_pos hg, if_pos hg]
        cases hb : loopBody o maxAttempts s with
        | done outcome final => rfl
        | cont s2 =>
          have hlt := loopBody_cont_attempts_lt hb
          exact ih f2 s2 (by omega) (by omega)
      · rw [if_neg hg, if_neg hg]

/-!
## Symbolic iteration lemmas

One loop iteration evaluated on a symbolic state of the canonical shape
reached after `j` patch iterations: `j` attempts consumed, the analysis of
the single initial Analyze call held, and `j` calls of each of Generate,
Validate and Heal made.
-/

/-- An iteration whose validation fails and whose healing patches the query
without escalation: one attempt is consumed and `current_query` is
overwritten with `healed_query`. -/
theorem loopBody_patch_step {o : Oracle} {m : Nat} {a0 : JsonValue}
    (ha0 : a0.isNone = false) {j : Nat} {c : JsonValue} {q : String}
    {vf hf : List (String × JsonValue)}
    (hg : o.generate j = .ok q)
    (hv : o.validate j = .ok (.obj vf))
    (hvF : (objGetD vf "isValid" (.bool false)).truthy = false)
    (hh : o.heal j = .ok (.obj hf))
    (hhR : (objGetD hf "requires_human_review" (.bool false)).truthy = false)
    (hhA : (objGetD hf "requires_reanalysis" (.bool false)).truthy = false) :
    loopBody o m ⟨j, a0, c, 1, j, j, j⟩ =
      .cont ⟨j + 1, a0, objGetD hf "healed_query" .null, 1, j + 1, j + 1, j + 1⟩ := by
  unfold loopBody afterAnalysis validateStep healStep
  dsimp only
  rw [ha0, hg, hv, hh]
  simp only [hvF, hhR, hhA]
  rfl

/-- An iteration whose validation succeeds: the loop terminates with the
success dictionary and the attempt counter unchanged. -/
theorem loopBody_success_step {o : Oracle} {m : Nat} {a0 : JsonValue}
    (ha0 : a0.isNone = false) {j : Nat} {c : JsonValue} {q : String}
    {vf : List (String × JsonValue)}
    (hg : o.generate j = .ok q)
    (hv : o.validate j = .ok (.obj vf))
    (hvT : (objGetD vf "isValid" (.bool false)).truthy = true) :
    loopBody o m ⟨j, a0, c, 1, j, j, j⟩ =
      .done (.ok (successDict (.str q) a0 (.obj vf) j))
        ⟨j, a0, .str q, 1, j + 1, j + 1, j⟩ := by
  unfold loopBody afterAnalysis validateStep
  dsimp only
  rw [ha0, hg, hv]
  simp only [hvT]
  rfl

/-- The first iteration, which holds no analysis yet, behaves like an
iteration that already holds the result of the initial Analyze call. -/
theorem loopBody_analyze_first {o : Oracle} {m : Nat} {a0 : JsonValue}
    (ha : o.analyze 0 = .ok a0) (ha0 : a0.isNone = false) :
    loopBody o m initState = loopBody o m ⟨0, a0, .null, 1, 0, 0, 0⟩ := by
  have hnull : (JsonValue.null).isNone = true := rfl
  simp only [loopBody, initState, hnull, ha, ha0]
  simp

/-- Two states with equal attempt counters and equal loop bodies drive the
loop to the same result, provided the guard holds. -/
theorem processLoop_congr_entry {o : Oracle} {m f : Nat}
    {s t : LoopState} (hlt : s.healing_attempts < m)
    (hb : loopBody o m s = loopBody o m t)
    (ha : s.healing_attempts = t.healing_attempts) :
    processLoop o m (f + 1) s = processLoop o m (f + 1) t := by
  simp only [processLoop]
  rw [if_pos hlt, if_pos (ha ▸ hlt), hb]

/-- Run of the loop under an oracle whose every validation fails and whose
every healing patches without escalation, starting from the canonical state
after `j` patch iterations: the loop consumes the whole budget and returns
the attempts-exhausted dictionary. -/
theorem processLoop_all_invalid (o : Oracle) (m : Nat) (a0 : JsonValue)
    (ha0 : a0.isNone = false)
    (qf : Nat → String) (vf hf : Nat → List (String × JsonValue))
    (hg : ∀ n, o.generate n = .ok (qf n))
    (hv : ∀ n, o.validate n = .ok (.obj (vf n)))
    (hvF : ∀ n, (objGetD (vf n) "isValid" (.bool false)).truthy = false)
    (hh : ∀ n, o.heal n = .ok (.obj (hf n)))
    (hhR : ∀ n, (objGetD (hf n) "requires_human_review" (.bool false)).truthy = false)
    (hhA : ∀ n, (objGetD (hf n) "requires_reanalysis" (.bool false)).truthy = false) :
    ∀ (fuel j : Nat) (c : JsonValue), j + fuel = m →
      (processLoop o m fuel ⟨j, a0, c, 1, j, j, j⟩).1 = .ok (exhaustedDict m) ∧
      (processLoop o m fuel ⟨j, a0, c, 1, j, j, j⟩).2.healing_attempts = m ∧
      (processLoop o m fuel ⟨j, a0, c, 1, j, j, j⟩).2.healCalls = m ∧
      (processLoop o m fuel ⟨j, a0, c, 1, j, j, j⟩).2.validateCalls = m ∧
      (processLoop o m fuel ⟨j, a0, c, 1, j, j, j⟩).2.generateCalls = m ∧
      (processLoop o m fuel ⟨j, a0, c, 1, j, j, j⟩).2.analyzeCalls = 1 := by
  intro fuel
  induction fuel with
  | zero =>
    intro j c hj
    have hjm : j = m := by omega
    subst hjm
    simp [processLoop]
  | succ f ih =>
    intro j c hj
    have hguard : j < m := by omega
    simp only [processLoop]
    rw [if_pos hguard,
      loopBody_patch_step ha0 (hg j) (hv j) (hvF j) (hh j) (hhR j) (hhA j)]
    exact ih (j + 1) _ (by omega)

/-- Run of the loop under an oracle whose first `k` validations fail (each
healing patching without escalation) and whose validation `k` succeeds,
starting from the canonical state after `j ≤ k` patch iterations: the loop
returns the success dictionary with `k` attempts consumed. -/
theorem processLoop_first_k (o : Oracle) (m : Nat) (a0 : JsonValue)
    (ha0 : a0.isNone = false)
    (qf : Nat → String) (vf hf : Nat → List (String × JsonValue)) (k : Nat)
    (hg : ∀ n, o.generate n = .ok (qf n))
    (hv : ∀ n, o.validate n = .ok (.obj (vf n)))
    (hvF : ∀ n, n < k → (objGetD (vf n) "isValid" (.bool false)).truthy = false)
    (hvT : (objGetD (vf k) "isValid" (.bool false)).truthy = true)
    (hh : ∀ n, n < k → o.heal n = .ok (.obj (hf n)))
    (hhR : ∀ n, n < k →
      (objGetD (hf n) "requires_human_review" (.bool false)).truthy = false)
    (hhA : ∀ n, n < k →
      (objGetD (hf n) "requires_reanalysis" (.bool false)).truthy = false)
    (hk : k < m) :
    ∀ (fuel j : Nat) (c : JsonValue), j ≤ k → k - j < fuel →
      processLoop o m fuel ⟨j, a0, c, 1, j, j, j⟩ =
        (.ok (successDict (.str (qf k)) a0 (.obj (vf k)) k),
         ⟨k, a0, .str (qf k), 1, k + 1, k + 1, k⟩) := by
  intro fuel
  induction fuel with
  | zero => intro j c hjk hf0; omega
  | succ f ih =>
    intro j c hjk hfuel
    have hguard : j < m := by omega
    by_cases hjeq : j = k
    · subst hjeq
      simp only [processLoop]
      rw [if_pos hguard, loopBody_success_step ha0 (hg j) (hv j) hvT]
    · have hjlt : j < k := by omega
      simp only [processLoop]
      rw [if_pos hguard, loopBody_patch_step ha0 (hg j) (hv j) (hvF j hjlt)
        (hh j hjlt) (hhR j hjlt) (hhA j hjlt)]
      exact ih (j + 1) _ (by omega) (by omega)

/-!
## Runs of the retry loop of the model invoker
-/

/-- When every attempt from `attempt` on fails, the retry loop raises the
cause of the last attempt and its event trace is `retryTraceFrom`. -/
theorem generateContentLoop_all_fail (model : Nat → Except String String)
    (cf : Nat → String)
    (hfail : ∀ n, failCause (model n) = some (cf n)) (maxR : Nat) :
    ∀ (remaining attempt : Nat), attempt + remaining = maxR → 1 ≤ remaining →
      generateContentLoop model maxR attempt remaining =
        (.raised (cf (maxR - 1)), retryTraceFrom maxR attempt remaining) := by
  intro remaining
  induction remaining with
  | zero => intro attempt h h1; omega
  | succ r ih =>
    intro attempt h _
    have hthis := hfail attempt
    cases hm : model attempt with
    | ok t =>
      rw [hm] at hthis
      by_cases ht : t = ""
      · rw [ht] at hthis
        simp [failCause] at hthis
        cases r with
        | zero =>
          have hlast : attempt = maxR - 1 := by omega
          subst hlast
          simp [generateContentLoop, retryTraceFrom, hm, ht, hthis]
        | succ r2 =>
          have hnl : ¬ attempt = maxR - 1 := by omega
          have hih := ih (attempt + 1) (by omega) (by omega)
          rw [generateContentLoop, retryTraceFrom, hm]
          simp [ht, hnl, hih]
      · simp only [failCause, if_neg ht] at hthis
        exact absurd hthis (by simp)
    | error e =>
      rw [hm] at hthis
      simp only [failCause, Option.some.injEq] at hthis
      cases r with
      | zero =>
        have hlast : attempt = maxR - 1 := by omega
        subst hlast
        simp [generateContentLoop, retryTraceFrom, hm, hthis]
      | succ r2 =>
        have hnl : ¬ attempt = maxR - 1 := by omega
        have hih := ih (attempt + 1) (by omega) (by omega)
        rw [generateContentLoop, retryTraceFrom, hm]
        simp [hnl, hih]

/-- An all-failure trace holds one model call per remaining attempt, and one
sleep between consecutive attempts. -/
theorem retryTraceFrom_counts (maxR : Nat) :
    ∀ (remaining attempt : Nat), attempt + remaining = maxR →
      countCalls (retryTraceFrom maxR attempt remaining) = remaining ∧
      countSleeps (retryTraceFrom maxR attempt remaining) = remaining - 1 := by
  intro remaining
  induction remaining with
  | zero => intro attempt h; simp [retryTraceFrom, countCalls, countSleeps]
  | succ r ih =>
    intro attempt h
    by_cases hlast : attempt = maxR - 1
    · have hr : r = 0 := by omega
      subst hr
      simp [retryTraceFrom, hlast, countCalls, countSleeps]
    · have hr : 1 ≤ r := by omega
      obtain ⟨hc, hs⟩ := ih (attempt + 1) (by omega)
      simp only [retryTraceFrom, if_neg hlast]
      constructor
      · simp [countCalls, List.countP_cons] at hc ⊢
        omega
      · simp [countSleeps, List.countP_cons] at hs ⊢
        omega

/-!
## Properties of `splitFirst`, `pyStrip` and `clean_response`
-/

/-- Appending on the right preserves being a prefix. -/
theorem isPrefixOf_append_of {l m : List Char} (t : List Char)
    (h : l.isPrefixOf m = true) : l.isPrefixOf (m ++ t) = true := by
  induction l generalizing m with
  | nil => simp [List.isPrefixOf]
  | cons a as ih =>
    cases m with
    | nil => simp [List.isPrefixOf] at h
    | cons b bs =>
      simp only [List.isPrefixOf, Bool.and_eq_true] at h
      simp only [List.cons_append, List.isPrefixOf, Bool.and_eq_true]
      exact ⟨h.1, ih h.2⟩

/-- A list is a prefix of itself followed by anything. -/
theorem isPrefixOf_self_append (l u : List Char) :
    l.isPrefixOf (l ++ u) = true := by
  induction l with
  | nil => simp [List.isPrefixOf]
  | cons a as ih => simp [List.isPrefixOf, ih]

/-- A prefix plus the dropped remainder reassembles the list. -/
theorem eq_append_drop_of_isPrefixOf {l m : List Char}
    (h : l.isPrefixOf m = true) : m = l ++ m.drop l.length := by
  induction l generalizing m with
  | nil => simp
  | cons a as ih =>
    cases m with
    | nil => simp [List.isPrefixOf] at h
    | cons b bs =>
      simp only [List.isPrefixOf, Bool.and_eq_true, beq_iff_eq] at h
      obtain ⟨hab, hpre⟩ := h
      subst hab
      simpa using ih hpre

/-- When the separator does not occur, the part is the whole input
(`s.split(sep)[0] == s`). -/
theorem sf_none_eq (sep : List Char) :
    ∀ s, (splitFirst sep s).2 = none → (splitFirst sep s).1 = s := by
  intro s
  induction s with
  | nil => intro _; rfl
  | cons c cs ih =>
    intro h
    by_cases hp : sep.isPrefixOf (c :: cs)
    · simp [splitFirst, hp] at h
    · simp only [splitFirst, if_neg hp] at h ⊢
      rw [ih h]

/-- When the separator occurs, the input decomposes as part, separator,
remainder. -/
theorem sf_some_decomp (sep : List Char) :
    ∀ s r, (splitFirst sep s).2 = some r →
      s = (splitFirst sep s).1 ++ sep ++ r := by
  intro s
  induction s with
  | nil => intro r h; simp [splitFirst] at h
  | cons c cs ih =>
    intro r h
    by_cases hp : sep.isPrefixOf (c :: cs)
    · simp only [splitFirst, if_pos hp, Option.some.injEq] at h ⊢
      subst h
      simpa using eq_append_drop_of_isPrefixOf hp
    · simp only [splitFirst, if_neg hp] at h ⊢
      rw [List.cons_append, List.cons_append, ← ih r h]

/-- The part returned by `splitFirst` starts the input. -/
theorem sf_part_start (sep : List Char) (s : List Char) :
    ∃ t, s = (splitFirst sep s).1 ++ t := by
  cases h2 : (splitFirst sep s).2 with
  | none => exact ⟨[], by simp [sf_none_eq sep s h2]⟩
  | some r =>
    refine ⟨sep ++ r, ?_⟩
    have := sf_some_decomp sep s r h2
    simpa [List.append_assoc] using this

/-- The part returned by `splitFirst` never contains the separator: it is
the text before the first occurrence. -/
theorem sf_free (sep : List Char) :
    ∀ s, (splitFirst sep (splitFirst sep s).1).2 = none := by
  intro s
  induction s with
  | nil => rfl
  | cons c cs ih =>
    by_cases hp : sep.isPrefixOf (c :: cs)
    · simp [splitFirst, hp]
    · simp only [splitFirst, if_neg hp]
      by_cases hp2 : sep.isPrefixOf (c :: (splitFirst sep cs).1)
      · exfalso
        obtain ⟨t, ht⟩ := sf_part_start sep cs
        have : sep.isPrefixOf ((c :: (splitFirst sep cs).1) ++ t) = true :=
          isPrefixOf_append_of t hp2
        rw [List.cons_append, ← ht] at this
        exact hp this
      · simp only [splitFirst, if_neg hp2]
        exact ih

/-- A list that exhibits an occurrence of a non-empty separator contains
it. -/
theorem hasSub_append (sep : List Char) (hne : sep ≠ []) :
    ∀ a b, hasSub sep (a ++ (sep ++ b)) = true := by
  intro a
  induction a with
  | nil =>
    intro b
    cases sep with
    | nil => exact absurd rfl hne
    | cons c cs =>
      unfold hasSub
      rw [show ([] : List Char) ++ ((c :: cs) ++ b) = c :: (cs ++ b) from rfl]
      simp only [splitFirst,
        if_pos (show (c :: cs).isPrefixOf (c :: (cs ++ b)) = true from
          isPrefixOf_self_append (c :: cs) b)]
      rfl
  | cons x a2 ih =>
    intro b
    unfold hasSub
    rw [show (x :: a2) ++ (sep ++ b) = x :: (a2 ++ (sep ++ b)) from rfl]
    by_cases hp : sep.isPrefixOf (x :: (a2 ++ (sep ++ b)))
    · simp only [splitFirst, if_pos hp]
      rfl
    · simp only [splitFirst, if_neg hp]
      exact ih b

/-- Containment of a non-empty separator is preserved by surrounding
context. -/
theorem hasSub_mono (sep : List Char) (hne : sep ≠ []) (a t b : List Char)
    (h : hasSub sep t = true) : hasSub sep (a ++ t ++ b) = true := by
  unfold hasSub at h
  obtain ⟨r, hr⟩ := Option.isSome_iff_exists.mp h
  obtain ⟨p, hd⟩ : ∃ p, t = p ++ sep ++ r :=
    ⟨(splitFirst sep t).1, sf_some_decomp sep t r hr⟩
  rw [show a ++ t ++ b = (a ++ p) ++ (sep ++ (r ++ b)) by
    rw [hd]; simp [List.append_assoc]]
  exact hasSub_append sep hne _ _

/-- `dropWhile` never lengthens a list. -/
theorem length_dropWhile_le_self (p : Char → Bool) :
    ∀ l : List Char, (l.dropWhile p).length ≤ l.length := by
  intro l
  induction l with
  | nil => simp
  | cons a l ih =>
    by_cases h : p a
    · simp [List.dropWhile, h]
      omega
    · simp [List.dropWhile, h]

/-- `dropWhile` is idempotent. -/
theorem dropWhile_dropWhile (p : Char → Bool) :
    ∀ l : List Char, (l.dropWhile p).dropWhile p = l.dropWhile p := by
  intro l
  induction l with
  | nil => rfl
  | cons a l ih =>
    by_cases h : p a
    · simp [List.dropWhile, h, ih]
    · simp [List.dropWhile, h]

/-- Stripping returns a contiguous piece of its input. -/
theorem pyStrip_decomp (s : List Char) : ∃ a b, s = a ++ pyStrip s ++ b := by
  refine ⟨s.takeWhile isSpaceChar,
    ((s.dropWhile isSpaceChar).reverse.takeWhile isSpaceChar).reverse, ?_⟩
  unfold pyStrip rstrip
  conv_lhs => rw [← List.takeWhile_append_dropWhile (p := isSpaceChar) (l := s)]
  rw [List.append_assoc]
  congr 1
  conv_lhs =>
    rw [← List.reverse_reverse (s.dropWhile isSpaceChar),
      ← List.takeWhile_append_dropWhile (p := isSpaceChar)
        (l := (s.dropWhile isSpaceChar).reverse)]
  rw [List.reverse_append]

/-- Stripping is idempotent. -/
theorem pyStrip_idem (s : List Char) : pyStrip (pyStrip s) = pyStrip s := by
  have hu : (s.dropWhile isSpaceChar).dropWhile isSpaceChar
      = s.dropWhile isSpaceChar := dropWhile_dropWhile _ _
  set u := s.dropWhile isSpaceChar with hudef
  set w := (u.reverse.dropWhile isSpaceChar).reverse with hwdef
  have hws : pyStrip s = w := rfl
  have hwrev : w.reverse = u.reverse.dropWhile isSpaceChar := by
    rw [hwdef, List.reverse_reverse]
  have hw2 : w.reverse.dropWhile isSpaceChar = w.reverse := by
    rw [hwrev]; exact dropWhile_dropWhile _ _
  have hwu : ∃ tail, u = w ++ tail := by
    refine ⟨(u.reverse.takeWhile isSpaceChar).reverse, ?_⟩
    conv_lhs =>
      rw [← List.reverse_reverse u,
        ← List.takeWhile_append_dropWhile (p := isSpaceChar) (l := u.reverse)]
    rw [List.reverse_append, hwdef]
  have hdw : w.dropWhile isSpaceChar = w := by
    cases hwc : w with
    | nil => rfl
    | cons c w2 =>
      obtain ⟨tail, htail⟩ := hwu
      rw [hwc] at htail
      by_cases hpc : isSpaceChar c
      · exfalso
        rw [htail] at hu
        simp [List.dropWhile, hpc] at hu
        have := congrArg List.length hu
        simp only [List.length_cons] at this
        have hle := length_dropWhile_le_self isSpaceChar (w2 ++ tail)
        omega
      · simp [List.dropWhile, hpc]
  rw [hws]
  unfold pyStrip rstrip
  rw [hdw, hw2, List.reverse_reverse]

/-- The JSON fence marker extends the plain fence marker. -/
theorem fenceJson_decomp :
    fenceJson = fence ++ ('j' :: 's' :: 'o' :: 'n' :: []) := rfl

theorem fence_ne_nil : fence ≠ [] := by decide

/-- Containing the JSON fence marker entails containing the plain fence
marker. -/
theorem hasSub_fence_of_fenceJson (s : List Char)
    (h : hasSub fenceJson s = true) : hasSub fence s = true := by
  unfold hasSub at h
  obtain ⟨r, hr⟩ := Option.isSome_iff_exists.mp h
  obtain ⟨p, hd⟩ : ∃ p, s = p ++ fenceJson ++ r :=
    ⟨(splitFirst fenceJson s).1, sf_some_decomp fenceJson s r hr⟩
  rw [show s = p ++ (fence ++ (('j' :: 's' :: 'o' :: 'n' :: []) ++ r)) by
    rw [hd, fenceJson_decomp]; simp [List.append_assoc]]
  exact hasSub_append fence fence_ne_nil p _

theorem hasSub_false_iff (sep u : List Char) :
    hasSub sep u = false ↔ (splitFirst sep u).2 = none := by
  unfold hasSub
  cases (splitFirst sep u).2 <;> simp

/-- The JSON-tagged branch of cleaning. -/
theorem clean_response_eq_of_fenceJson {x rest : List Char}
    (h : (splitFirst fenceJson (pyStrip x)).2 = some rest) :
    clean_response x =
      pyStrip (splitFirst fence (splitFirst fenceJson rest).1).1 := by
  unfold clean_response
  simp only [h]

/-- The untagged-fence branch of cleaning. -/
theorem clean_response_eq_of_fence {x rest : List Char}
    (h1 : (splitFirst fenceJson (pyStrip x)).2 = none)
    (h2 : (splitFirst fence (pyStrip x)).2 = some rest) :
    clean_response x =
      pyStrip (splitFirst fence (splitFirst fence rest).1).1 := by
  unfold clean_response
  simp only [h1, h2]

/-- The fence-free branch of cleaning. -/
theorem clean_response_eq_of_plain {x : List Char}
    (h1 : (splitFirst fenceJson (pyStrip x)).2 = none)
    (h2 : (splitFirst fence (pyStrip x)).2 = none) :
    clean_response x = pyStrip (pyStrip x) := by
  unfold clean_response
  simp only [h1, h2]

/-- A stripped, fence-free text is a fixed point of cleaning. -/
theorem clean_response_fixed (u : List Char) (hstrip : pyStrip u = u)
    (hfj : (splitFirst fenceJson u).2 = none)
    (hfen : (splitFirst fence u).2 = none) : clean_response u = u := by
  rw [clean_response_eq_of_plain (by rw [hstrip]; exact hfj)
    (by rw [hstrip]; exact hfen), hstrip, hstrip]

/-- The output of cleaning is always stripped and fence-free. -/
theorem clean_response_output (x : List Char) :
    pyStrip (clean_response x) = clean_response x ∧
    (splitFirst fenceJson (clean_response x)).2 = none ∧
    (splitFirst fence (clean_response x)).2 = none := by
  have hkey : ∀ v : List Char, (splitFirst fence v).2 = none →
      pyStrip (pyStrip v) = pyStrip v ∧
      (splitFirst fenceJson (pyStrip v)).2 = none ∧
      (splitFirst fence (pyStrip v)).2 = none := by
    intro v hv
    have hfenv : hasSub fence v = false := (hasSub_false_iff fence v).mpr hv
    have hfen : hasSub fence (pyStrip v) = false := by
      by_contra hc
      have hc2 : hasSub fence (pyStrip v) = true := by
        cases hx : hasSub fence (pyStrip v) with
        | false => exact absurd hx hc
        | true => rfl
      obtain ⟨a, b, hab⟩ := pyStrip_decomp v
      have := hasSub_mono fence fence_ne_nil a (pyStrip v) b hc2
      rw [← hab] at this
      rw [hfenv] at this
      exact Bool.noConfusion this
    have hfj : hasSub fenceJson (pyStrip v) = false := by
      by_contra hc
      have hc2 : hasSub fenceJson (pyStrip v) = true := by
        cases hx : hasSub fenceJson (pyStrip v) with
        | false => exact absurd hx hc
        | true => rfl
      have := hasSub_fence_of_fenceJson (pyStrip v) hc2
      rw [hfen] at this
      exact Bool.noConfusion this
    exact ⟨pyStrip_idem v, (hasSub_false_iff _ _).mp hfj,
      (hasSub_false_iff _ _).mp hfen⟩
  cases h1 : (splitFirst fenceJson (pyStrip x)).2 with
  | some rest =>
    rw [clean_response_eq_of_fenceJson h1]
    exact hkey (splitFirst fence (splitFirst fenceJson rest).1).1
      (sf_free fence _)
  | none =>
    cases h2 : (splitFirst fence (pyStrip x)).2 with
    | some rest =>
      rw [clean_response_eq_of_fence h1 h2]
      exact hkey (splitFirst fence (splitFirst fence rest).1).1
        (sf_free fence _)
    | none =>
      rw [clean_response_eq_of_plain h1 h2]
      exact hkey (pyStrip x) h2

/-- Scanning `a ++ u` when no occurrence of the separator begins inside
`a` (at no non-empty suffix of `a` does the separator match): the part is
`a` followed by the part of `u`, the remainder is that of `u`. -/
theorem splitFirst_append_no_match (sep : List Char) :
    ∀ (a u : List Char),
      (∀ x y, a = x ++ y → y ≠ [] → sep.isPrefixOf (y ++ u) = false) →
      splitFirst sep (a ++ u) =
        (a ++ (splitFirst sep u).1, (splitFirst sep u).2) := by
  intro a
  induction a with
  | nil => intro u h; simp
  | cons c a2 ih =>
    intro u h
    have hp : sep.isPrefixOf (c :: (a2 ++ u)) = false :=
      h [] (c :: a2) rfl (by simp)
    rw [List.cons_append]
    simp only [splitFirst]
    rw [if_neg (by simp [hp])]
    rw [ih u (fun x y hxy hy => h (c :: x) y (by rw [hxy]; rfl) hy)]
    simp

/-- No occurrence of the fence marker can begin inside a fence-free text
whose last character is not a backtick, even when the text is followed by
more input starting with the fence: a match of length three or more would
exhibit a fence inside the text, and a shorter overhang would force the
last character of the text to be a backtick. -/
theorem fence_boundary_no_match (p0 : List Char) (d : Char)
    (hd : (d = btChar) → False)
    (hfree : hasSub fence (p0 ++ [d]) = false) :
    ∀ x y w, p0 ++ [d] = x ++ y → y ≠ [] → y ++ fence = fence ++ w → False := by
  intro x y w hxy hy hyf
  by_cases h3 : 3 ≤ y.length
  · have ht : (y ++ fence).take 3 = y.take 3 := by
      rw [List.take_append_eq_append_take, show 3 - y.length = 0 by omega]
      simp
    have ht2 : (fence ++ w).take 3 = fence := by
      rw [show (3 : Nat) = fence.length from rfl, List.take_left]
    have hyt : y.take 3 = fence := by rw [← ht, hyf, ht2]
    have hyd : y = fence ++ y.drop 3 := by
      conv_lhs => rw [← List.take_append_drop 3 y]
      rw [hyt]
    have hsub : hasSub fence (p0 ++ [d]) = true := by
      rw [hxy, hyd]
      exact hasSub_append fence fence_ne_nil x _
    rw [hfree] at hsub
    exact Bool.noConfusion hsub
  · have ht1 : (y ++ fence).take y.length = y := by
      rw [List.take_append_eq_append_take, Nat.sub_self]
      simp
    have ht2 : (fence ++ w).take y.length = fence.take y.length := by
      rw [List.take_append_eq_append_take,
        show y.length - fence.length = 0 by
          rw [show fence.length = 3 from rfl]; omega]
      simp
    have hyt : y = fence.take y.length := by
      rw [hyf, ht2] at ht1
      exact ht1.symm
    rcases List.eq_nil_or_concat y with hnil | ⟨y0, c, hcon⟩
    · exact hy hnil
    · rw [List.concat_eq_append] at hcon
      have hcy : c ∈ y := by rw [hcon]; simp
      have hcb : c = btChar := by
        have hmem : c ∈ fence.take y.length := by rw [← hyt]; exact hcy
        have hcf : c ∈ fence := List.take_subset _ _ hmem
        have hall : ∀ e ∈ fence, e = btChar := by decide
        exact hall c hcf
      have hlast : d = c := by
        rw [hcon] at hxy
        have h1 := congrArg List.reverse hxy
        simp only [List.reverse_append, List.reverse_cons, List.reverse_nil,
          List.nil_append, List.cons_append, List.append_assoc] at h1
        exact (List.cons.injEq _ _ _ _).mp h1 |>.1
      exact hd (hlast.trans hcb)

/-- Padding a fence-free text with a leading and a trailing newline keeps
it fence-free: an occurrence in the padded text could not cover either
newline, so it would lie inside the original text. -/
theorem hasSub_fence_pad (s : List Char) (hs : hasSub fence s = false) :
    hasSub fence (('\n' :: s) ++ ['\n']) = false := by
  cases hval : hasSub fence (('\n' :: s) ++ ['\n']) with
  | false => rfl
  | true =>
    exfalso
    unfold hasSub at hval
    obtain ⟨r, hr⟩ := Option.isSome_iff_exists.mp hval
    obtain ⟨P, hdec⟩ : ∃ P, ('\n' :: s) ++ ['\n'] = P ++ fence ++ r :=
      ⟨_, sf_some_decomp fence _ r hr⟩
    cases P with
    | nil =>
      rw [List.nil_append,
        show fence = btChar :: btChar :: btChar :: [] from rfl] at hdec
      simp only [List.cons_append, List.append_assoc] at hdec
      have h1 := (List.cons.injEq _ _ _ _).mp hdec |>.1
      exact absurd h1 (by decide)
    | cons c P2 =>
      simp only [List.cons_append, List.append_assoc] at hdec
      have h2 := (List.cons.injEq _ _ _ _).mp hdec |>.2
      rcases List.eq_nil_or_concat r with hnil | ⟨r0, e, hcon⟩
      · subst hnil
        have h3 := congrArg List.reverse h2
        simp only [List.reverse_append, List.reverse_cons, List.reverse_nil,
          List.nil_append, List.append_assoc,
          show fence.reverse = fence from rfl,
          show fence = btChar :: btChar :: btChar :: [] from rfl,
          List.cons_append] at h3
        have h4 := (List.cons.injEq _ _ _ _).mp h3 |>.1
        exact absurd h4 (by decide)
      · rw [List.concat_eq_append] at hcon
        subst hcon
        have h3 := congrArg List.reverse h2
        simp only [List.reverse_append, List.reverse_cons, List.reverse_nil,
          List.nil_append, List.append_assoc, List.cons_append] at h3
        have h5 := (List.cons.injEq _ _ _ _).mp h3 |>.2
        have h6 := congrArg List.reverse h5
        simp only [List.reverse_append, List.reverse_reverse] at h6
        have hsub : hasSub fence s = true := by
          rw [h6]
          have := hasSub_append fence fence_ne_nil P2 r0
          simpa [List.append_assoc] using this
        rw [hs] at hsub
        exact Bool.noConfusion hsub

/-- Python `dict.get` returns the default when the key is absent. -/
theorem objGetD_missing_key :
    ∀ (fields : List (String × JsonValue)) (key : String) (d : JsonValue),
      (∀ p ∈ fields, p.1 ≠ key) → objGetD fields key d = d := by
  intro fields key d
  induction fields with
  | nil => intro _; rfl
  | cons p rest ih =>
    intro h
    obtain ⟨k, v⟩ := p
    have hk : k ≠ key := h (k, v) (by simp)
    simp only [objGetD, if_neg hk]
    exact ih (fun p hp => h p (by simp [hp]))

/-- Scanning a text that starts with the separator: empty part, remainder
after the separator. -/
theorem splitFirst_sep_append (sep : List Char) (hne : sep ≠ [])
    (u : List Char) : splitFirst sep (sep ++ u) = ([], some u) := by
  cases sep with
  | nil => exact absurd rfl hne
  | cons c cs =>
    rw [List.cons_append]
    simp only [splitFirst,
      if_pos (show (c :: cs).isPrefixOf (c :: (cs ++ u)) = true from
        isPrefixOf_self_append (c :: cs) u)]
    rw [show c :: (cs ++ u) = (c :: cs) ++ u from rfl, List.drop_left]

/-- A leading whitespace character is stripped. -/
theorem pyStrip_cons_space {c : Char} (hc : isSpaceChar c = true)
    (l : List Char) : pyStrip (c :: l) = pyStrip l := by
  unfold pyStrip
  simp [List.dropWhile, hc]

/-- `dropWhile` distributes over append. -/
theorem dropWhile_append_dist (p : Char → Bool) :
    ∀ a b : List Char, (a ++ b).dropWhile p =
      if (a.dropWhile p).isEmpty then b.dropWhile p
      else a.dropWhile p ++ b := by
  intro a
  induction a with
  | nil => intro b; simp
  | cons x l ih =>
    intro b
    by_cases h : p x
    · simp [List.dropWhile, h, ih]
    · simp [List.dropWhile, h]

/-- A trailing whitespace character is stripped. -/
theorem pyStrip_append_space {d : Char} (hd : isSpaceChar d = true)
    (l : List Char) : pyStrip (l ++ [d]) = pyStrip l := by
  unfold pyStrip rstrip
  rw [dropWhile_append_dist]
  by_cases he : (l.dropWhile isSpaceChar).isEmpty
  · rw [if_pos he]
    have : l.dropWhile isSpaceChar = [] := by
      cases hx : l.dropWhile isSpaceChar with
      | nil => rfl
      | cons y ys => rw [hx] at he; simp [List.isEmpty] at he
    rw [this]
    simp [List.dropWhile, hd]
  · rw [if_neg he]
    rw [List.reverse_append]
    simp [List.dropWhile, hd]

/-- A text with non-whitespace first and last characters is already
stripped. -/
theorem pyStrip_no_space_ends {c d : Char} (hc : isSpaceChar c = false)
    (hd : isSpaceChar d = false) (l : List Char) :
    pyStrip (c :: (l ++ [d])) = c :: (l ++ [d]) := by
  unfold pyStrip rstrip
  rw [show List.dropWhile isSpaceChar (c :: (l ++ [d])) = c :: (l ++ [d]) by
    simp [List.dropWhile, hc]]
  rw [show (c :: (l ++ [d])).reverse = d :: (l.reverse ++ [c]) by simp]
  rw [show List.dropWhile isSpaceChar (d :: (l.reverse ++ [c]))
      = d :: (l.reverse ++ [c]) by simp [List.dropWhile, hd]]
  simp

/-- The fence markers spelt out character by character. -/
theorem fenceJson_cons :
    fenceJson = btChar :: btChar :: btChar :: 'j' :: 's' :: 'o' :: 'n' :: [] := rfl

theorem fence_cons : fence = btChar :: btChar :: btChar :: [] := rfl

/-!
## The claims
-/

/-- C1: evaluation of the code at the failing trace.  The claim (and the
spec) say that after a no-escalation healing the healed query is the query
re-validated on the next iteration.  In the code, `generate_query` runs
unconditionally at the top of every iteration and overwrites
`current_query` before `validate_query` is reached, so the assignment of
`healed_query` is a dead store.  Under a trace whose generation yields `G0`
then `G1`, whose first validation fails, and whose healing patches the
query to `H`, the second validation — and the returned success dictionary —
sees the freshly generated `G1`, not the healed `H`. -/
theorem c1_healed_query_discarded :
    process_with_healing oracleHealTrace 3 =
      (.ok (successDict (.str "G1") sampleAnalysis validVal 1),
       ⟨1, sampleAnalysis, .str "G1", 1, 2, 2, 1⟩) ∧
    (JsonValue.str "G1") ≠ (JsonValue.str "H") := by
  refine ⟨rfl, ?_⟩
  simp

/-- C2: for `max_healing_attempts = 3`, any oracle whose every validation
result is a JSON object with falsy `isValid` and whose every healing result
is a JSON object with falsy `requires_human_review` and
`requires_reanalysis` drives the orchestrator to AttemptsExhausted: the
returned dictionary is exactly
`(success: false, error: "Max healing attempts reached",
healing_attempts: 3)`, exactly 3 healing attempts are performed (3 Heal
calls, never more), with 3 Validate calls and a single Analyze call. -/
theorem c2_attempts_exhausted (o : Oracle) (a0 : JsonValue)
    (qf : Nat → String) (vf hf : Nat → List (String × JsonValue))
    (ha : o.analyze 0 = .ok a0) (ha0 : a0.isNone = false)
    (hg : ∀ n, o.generate n = .ok (qf n))
    (hv : ∀ n, o.validate n = .ok (.obj (vf n)))
    (hvF : ∀ n, (objGetD (vf n) "isValid" (.bool false)).truthy = false)
    (hh : ∀ n, o.heal n = .ok (.obj (hf n)))
    (hhR : ∀ n, (objGetD (hf n) "requires_human_review" (.bool false)).truthy = false)
    (hhA : ∀ n, (objGetD (hf n) "requires_reanalysis" (.bool false)).truthy = false) :
    (process_with_healing o 3).1 = .ok (exhaustedDict 3) ∧
    (process_with_healing o 3).2.healing_attempts = 3 ∧
    (process_with_healing o 3).2.healCalls = 3 ∧
    (process_with_healing o 3).2.validateCalls = 3 ∧
    (process_with_healing o 3).2.generateCalls = 3 ∧
    (process_with_healing o 3).2.analyzeCalls = 1 := by
  have hbr := loopBody_analyze_first (m := 3) ha ha0
  have hcg := processLoop_congr_entry (f := 2)
    (show initState.healing_attempts < 3 by simp [initState]) hbr rfl
  unfold process_with_healing
  rw [show processLoop o 3 3 initState =
        processLoop o 3 3 ⟨0, a0, .null, 1, 0, 0, 0⟩ from hcg]
  exact processLoop_all_invalid o 3 a0 ha0 qf vf hf hg hv hvF hh hhR hhA
    3 0 .null (by omega)

/-- C2 witness: the concrete always-invalid, never-escalating oracle. -/
theorem c2_attempts_exhausted_witness :
    (process_with_healing oracleAlwaysInvalid 3).1 = .ok (exhaustedDict 3) ∧
    (process_with_healing oracleAlwaysInvalid 3).2.healing_attempts = 3 ∧
    (process_with_healing oracleAlwaysInvalid 3).2.healCalls = 3 ∧
    (process_with_healing oracleAlwaysInvalid 3).2.validateCalls = 3 ∧
    (process_with_healing oracleAlwaysInvalid 3).2.generateCalls = 3 ∧
    (process_with_healing oracleAlwaysInvalid 3).2.analyzeCalls = 1 :=
  c2_attempts_exhausted oracleAlwaysInvalid sampleAnalysis
    (fun _ => "SELECT 1")
    (fun _ => [("isValid", .bool false)])
    (fun _ => [("requires_human_review", .bool false),
      ("requires_reanalysis", .bool false), ("healed_query", .str "H")])
    rfl rfl (fun _ => rfl) (fun _ => rfl) (fun _ => rfl) (fun _ => rfl)
    (fun _ => rfl) (fun _ => rfl)

/-- C3: stage exceptions inside the loop body consume one healing attempt
each and the loop continues, turning fatal only once the budget is
consumed.  Universally over all oracles and loop states: the `except`
clause continues the loop with `healing_attempts` incremented whenever the
incremented count is still under the budget, and re-raises (fatal) exactly
when it reaches the budget; an exception from each of the four stages —
Analyze, Generate, Validate, and Heal, the JSON-expecting ones covering
malformed-JSON parse failures — routes the iteration into that `except`
clause with the attempt increment.  Concretely: runs in which exactly one
Analyze, Generate, Validate or Heal call raises all recover and succeed
with the raised call counted (one attempt for the first three; for Heal,
one attempt on top of the invalid-validation increment), while a run whose
every stage call raises propagates the fatal `HTTPException` exactly when
`healing_attempts` reaches 3. -/
theorem c3_stage_exceptions_counted :
    (∀ (m : Nat) (s : LoopState), s.healing_attempts + 1 < m →
       handleExn m s = .cont { s with healing_attempts := s.healing_attempts + 1 }) ∧
    (∀ (m : Nat) (s : LoopState), m ≤ s.healing_attempts + 1 →
       handleExn m s =
         .done .httpError { s with healing_attempts := s.healing_attempts + 1 }) ∧
    (∀ (o : Oracle) (m : Nat) (s : LoopState),
       s.current_analysis.isNone = true → o.analyze s.analyzeCalls = .exn →
       loopBody o m s = handleExn m { s with analyzeCalls := s.analyzeCalls + 1 }) ∧
    (∀ (o : Oracle) (m : Nat) (s : LoopState),
       s.current_analysis.isNone = false → o.generate s.generateCalls = .exn →
       loopBody o m s = handleExn m { s with generateCalls := s.generateCalls + 1 }) ∧
    (∀ (o : Oracle) (m : Nat) (s : LoopState) (q : String),
       s.current_analysis.isNone = false → o.generate s.generateCalls = .ok q →
       o.validate s.validateCalls = .exn →
       loopBody o m s = handleExn m { s with
         current_query := .str q
         generateCalls := s.generateCalls + 1
         validateCalls := s.validateCalls + 1 }) ∧
    (∀ (o : Oracle) (m : Nat) (s : LoopState) (q : String)
       (vf : List (String × JsonValue)),
       s.current_analysis.isNone = false → o.generate s.generateCalls = .ok q →
       o.validate s.validateCalls = .ok (.obj vf) →
       (objGetD vf "isValid" (.bool false)).truthy = false →
       o.heal s.healCalls = .exn →
       loopBody o m s = handleExn m { s with
         current_query := .str q
         generateCalls := s.generateCalls + 1
         validateCalls := s.validateCalls + 1
         healing_attempts := s.healing_attempts + 1
         healCalls := s.healCalls + 1 }) ∧
    process_with_healing oracleAnalyzeFailsOnce 3 =
      (.ok (successDict (.str "Q") sampleAnalysis validVal 1),
       ⟨1, sampleAnalysis, .str "Q", 2, 1, 1, 0⟩) ∧
    process_with_healing oracleGenerateFailsOnce 3 =
      (.ok (successDict (.str "Q") sampleAnalysis validVal 1),
       ⟨1, sampleAnalysis, .str "Q", 1, 2, 1, 0⟩) ∧
    process_with_healing oracleValidateFailsOnce 3 =
      (.ok (successDict (.str "Q") sampleAnalysis validVal 1),
       ⟨1, sampleAnalysis, .str "Q", 1, 2, 2, 0⟩) ∧
    process_with_healing oracleHealFailsOnce 3 =
      (.ok (successDict (.str "Q") sampleAnalysis validVal 2),
       ⟨2, sampleAnalysis, .str "Q", 1, 2, 2, 1⟩) ∧
    process_with_healing oracleAllStagesFail 3 =
      (.httpError, ⟨3, .null, .null, 3, 0, 0, 0⟩) := by
  refine ⟨?_, ?_, ?_, ?_, ?_, ?_, rfl, rfl, rfl, rfl, rfl⟩
  · intro m s h
    unfold handleExn
    dsimp only
    rw [if_neg (by omega)]
  · intro m s h
    unfold handleExn
    dsimp only
    rw [if_pos (by omega)]
  · intro o m s hA hexn
    unfold loopBody
    rw [hA, if_pos rfl, hexn]
  · intro o m s hA hexn
    unfold loopBody afterAnalysis
    rw [hA]
    dsimp only
    rw [hexn]
    rfl
  · intro o m s q hA hg hvexn
    unfold loopBody afterAnalysis validateStep
    dsimp only
    rw [hA, hg, hvexn]
    rfl
  · intro o m s q vf hA hg hv hvF hhe
    unfold loopBody afterAnalysis validateStep healStep
    dsimp only
    rw [hA, hg, hv, hhe]
    simp only [hvF]
    rfl

/-- C3 witness: the `except` facts and every stage-exception step fact at
concrete states, one per stage. -/
theorem c3_stage_exceptions_counted_witness :
    handleExn 3 initState = .cont ⟨1, .null, .null, 0, 0, 0, 0⟩ ∧
    handleExn 3 ⟨2, .null, .null, 0, 0, 0, 0⟩ =
      .done .httpError ⟨3, .null, .null, 0, 0, 0, 0⟩ ∧
    loopBody oracleAllStagesFail 3 initState =
      handleExn 3 ⟨0, .null, .null, 1, 0, 0, 0⟩ ∧
    loopBody oracleGenerateFailsOnce 3 ⟨0, sampleAnalysis, .null, 1, 0, 0, 0⟩ =
      handleExn 3 ⟨0, sampleAnalysis, .null, 1, 1, 0, 0⟩ ∧
    loopBody oracleValidateFailsOnce 3 ⟨0, sampleAnalysis, .null, 1, 0, 0, 0⟩ =
      handleExn 3 ⟨0, sampleAnalysis, .str "Q", 1, 1, 1, 0⟩ ∧
    loopBody oracleHealFailsOnce 3 ⟨0, sampleAnalysis, .null, 1, 0, 0, 0⟩ =
      handleExn 3 ⟨1, sampleAnalysis, .str "Q", 1, 1, 1, 1⟩ :=
  ⟨c3_stage_exceptions_counted.1 3 initState (by decide),
   c3_stage_exceptions_counted.2.1 3 ⟨2, .null, .null, 0, 0, 0, 0⟩ (by decide),
   c3_stage_exceptions_counted.2.2.1 oracleAllStagesFail 3 initState rfl rfl,
   c3_stage_exceptions_counted.2.2.2.1 oracleGenerateFailsOnce 3
     ⟨0, sampleAnalysis, .null, 1, 0, 0, 0⟩ rfl rfl,
   c3_stage_exceptions_counted.2.2.2.2.1 oracleValidateFailsOnce 3
     ⟨0, sampleAnalysis, .null, 1, 0, 0, 0⟩ "Q" rfl rfl rfl,
   c3_stage_exceptions_counted.2.2.2.2.2.1 oracleHealFailsOnce 3
     ⟨0, sampleAnalysis, .null, 1, 0, 0, 0⟩ "Q" [("isValid", .bool false)]
     rfl rfl rfl rfl rfl⟩

/-- C4: a healing result with truthy `requires_human_review` terminates the
run on that same iteration.  First part: from any loop state, the healing
section returns the HumanReviewRequired dictionary
`(success: false, error, validation, healing_attempts, notes)` immediately,
with no hypothesis on `requires_reanalysis` — the human-review check comes
first — and no further stage call beyond the Heal call itself.  Second
part: a full run whose healing result sets both flags terminates on
iteration one with exactly one Generate and one Validate call. -/
theorem c4_human_review_immediate :
    (∀ (o : Oracle) (m : Nat) (validation : JsonValue) (s : LoopState)
       (fields : List (String × JsonValue)),
       o.heal s.healCalls = .ok (.obj fields) →
       (objGetD fields "requires_human_review" (.bool false)).truthy = true →
       healStep o m validation s =
         .done (.ok (humanReviewDict validation s.healing_attempts
           (objGetD fields "notes" (.str ""))))
           { s with healCalls := s.healCalls + 1 }) ∧
    process_with_healing oracleHumanReview 3 =
      (.ok (humanReviewDict invalidVal 1 (.str "N")),
       ⟨1, sampleAnalysis, .str "Q", 1, 1, 1, 1⟩) := by
  constructor
  · intro o m validation s fields hh hhr
    unfold healStep
    rw [hh]
    simp only [hhr]
    rfl
  · rfl

/-- C4 witness: the step fact at a concrete state and healing result with
both flags set. -/
theorem c4_human_review_immediate_witness :
    healStep oracleHumanReview 3 invalidVal
      ⟨1, sampleAnalysis, .str "Q", 1, 1, 1, 0⟩ =
      .done (.ok (humanReviewDict invalidVal 1 (.str "N")))
        ⟨1, sampleAnalysis, .str "Q", 1, 1, 1, 1⟩ :=
  c4_human_review_immediate.1 oracleHumanReview 3 invalidVal
    ⟨1, sampleAnalysis, .str "Q", 1, 1, 1, 0⟩
    [("requires_human_review", .bool true),
     ("requires_reanalysis", .bool true), ("notes", .str "N")] rfl rfl

/-- C5: a healing result with falsy `requires_human_review` and truthy
`requires_reanalysis` clears the stored analysis and continues the loop
with `healing_attempts` untouched (it keeps the value already incremented
for this healing attempt — neither reset nor decremented).  The full run
confirms that the next iteration invokes Analyze again (`analyzeCalls = 2`
on the final state) and that the attempt counter still reads 1 on the
returned success. -/
theorem c5_reanalysis_reruns_analyze :
    (∀ (o : Oracle) (m : Nat) (validation : JsonValue) (s : LoopState)
       (fields : List (String × JsonValue)),
       o.heal s.healCalls = .ok (.obj fields) →
       (objGetD fields "requires_human_review" (.bool false)).truthy = false →
       (objGetD fields "requires_reanalysis" (.bool false)).truthy = true →
       healStep o m validation s =
         .cont { s with healCalls := s.healCalls + 1,
                        current_analysis := JsonValue.null }) ∧
    process_with_healing oracleReanalysis 3 =
      (.ok (successDict (.str "Q") sampleAnalysis validVal 1),
       ⟨1, sampleAnalysis, .str "Q", 2, 2, 2, 1⟩) := by
  constructor
  · intro o m validation s fields hh hhr hha
    unfold healStep
    rw [hh]
    simp only [hhr, hha]
    rfl
  · rfl

/-- C5 witness: the step fact at a concrete state and reanalysis-requesting
healing result. -/
theorem c5_reanalysis_reruns_analyze_witness :
    healStep oracleReanalysis 3 invalidVal
      ⟨1, sampleAnalysis, .str "Q", 1, 1, 1, 0⟩ =
      .cont ⟨1, .null, .str "Q", 1, 1, 1, 1⟩ :=
  c5_reanalysis_reruns_analyze.1 oracleReanalysis 3 invalidVal
    ⟨1, sampleAnalysis, .str "Q", 1, 1, 1, 0⟩
    [("requires_reanalysis", .bool true)] rfl rfl rfl

/-- C6: for every `k < max_healing_attempts`, an oracle whose first `k`
validations are invalid (each healing patching without escalation) and
whose validation `k` is valid makes the orchestrator return the Success
dictionary `(success: true, query, analysis, validation, healing_attempts)`
with `healing_attempts = k`; for `k = 0` this is a first-try success with
zero attempts. -/
theorem c6_success_after_k_failures (o : Oracle) (a0 : JsonValue)
    (qf : Nat → String) (vf hf : Nat → List (String × JsonValue))
    (k maxAttempts : Nat) (hk : k < maxAttempts)
    (ha : o.analyze 0 = .ok a0) (ha0 : a0.isNone = false)
    (hg : ∀ n, o.generate n = .ok (qf n))
    (hv : ∀ n, o.validate n = .ok (.obj (vf n)))
    (hvF : ∀ n, n < k → (objGetD (vf n) "isValid" (.bool false)).truthy = false)
    (hvT : (objGetD (vf k) "isValid" (.bool false)).truthy = true)
    (hh : ∀ n, n < k → o.heal n = .ok (.obj (hf n)))
    (hhR : ∀ n, n < k →
      (objGetD (hf n) "requires_human_review" (.bool false)).truthy = false)
    (hhA : ∀ n, n < k →
      (objGetD (hf n) "requires_reanalysis" (.bool false)).truthy = false) :
    process_with_healing o maxAttempts =
      (.ok (successDict (.str (qf k)) a0 (.obj (vf k)) k),
       ⟨k, a0, .str (qf k), 1, k + 1, k + 1, k⟩) := by
  obtain ⟨f2, rfl⟩ : ∃ f2, maxAttempts = f2 + 1 := ⟨maxAttempts - 1, by omega⟩
  have hbr := loopBody_analyze_first (m := f2 + 1) ha ha0
  have hcg := processLoop_congr_entry (f := f2)
    (show initState.healing_attempts < f2 + 1 by simp [initState]) hbr rfl
  unfold process_with_healing
  rw [hcg]
  exact processLoop_first_k o (f2 + 1) a0 ha0 qf vf hf k hg hv hvF hvT hh
    hhR hhA hk (f2 + 1) 0 .null (by omega) (by omega)

/-- C6 witness: the concrete oracle with two invalid validations followed
by a valid one, under a budget of 3. -/
theorem c6_success_after_k_failures_witness :
    process_with_healing (oracleFirstK 2) 3 =
      (.ok (successDict (.str "Q") sampleAnalysis
        (.obj [("isValid", .bool true)]) 2),
       ⟨2, sampleAnalysis, .str "Q", 1, 3, 3, 2⟩) :=
  c6_success_after_k_failures (oracleFirstK 2) sampleAnalysis (fun _ => "Q")
    (fun n => if n < 2 then [("isValid", .bool false)]
      else [("isValid", .bool true)])
    (fun _ => [("requires_human_review", .bool false),
      ("requires_reanalysis", .bool false), ("healed_query", .str "H")])
    2 3 (by omega) rfl rfl (fun _ => rfl)
    (fun n => by
      by_cases h : n < 2 <;> simp [oracleFirstK, invalidVal, validVal, h])
    (fun n h => by simp [h, objGetD, JsonValue.truthy])
    (by simp [objGetD, JsonValue.truthy])
    (fun n h => rfl) (fun n h => rfl) (fun n h => rfl)

/-- C7: when every attempt of the remote model fails — the cause function
`cf` giving the failure cause of each attempt, with empty text counting as
the `ValueError` failure — `_generate_content` makes exactly `max_retries`
model calls, each preceded by a rate-limiter application, sleeping exactly
1 second between consecutive attempts, and raises the cause of the last
attempt. -/
theorem c7_retries_exhaust_exactly (model : Nat → Except String String)
    (cf : Nat → String) (maxR : Nat)
    (hfail : ∀ n, failCause (model n) = some (cf n)) (h1 : 1 ≤ maxR) :
    generate_content model maxR =
      (.raised (cf (maxR - 1)), retryTraceFrom maxR 0 maxR) ∧
    countCalls (generate_content model maxR).2 = maxR ∧
    countSleeps (generate_content model maxR).2 = maxR - 1 := by
  have hmain := generateContentLoop_all_fail model cf hfail maxR maxR 0
    (by omega) h1
  have hcounts := retryTraceFrom_counts maxR maxR 0 (by omega)
  unfold generate_content
  rw [hmain]
  exact ⟨rfl, hcounts.1, hcounts.2⟩

/-- C7 witness: the model that always returns empty text, with the default
3 retries. -/
theorem c7_retries_exhaust_exactly_witness :
    generate_content (fun _ => Except.ok "") 3 =
      (.raised "Empty response from LLM", retryTraceFrom 3 0 3) ∧
    countCalls (generate_content (fun _ => Except.ok "") 3).2 = 3 ∧
    countSleeps (generate_content (fun _ => Except.ok "") 3).2 = 2 :=
  c7_retries_exhaust_exactly (fun _ => Except.ok "")
    (fun _ => "Empty response from LLM") 3 (fun _ => rfl) (by omega)

/-- C8: response cleaning is idempotent — cleaning an already cleaned text
returns it unchanged, for every text. -/
theorem c8_clean_idempotent (x : List Char) :
    clean_response (clean_response x) = clean_response x := by
  obtain ⟨hs, hfj, hfen⟩ := clean_response_output x
  exact clean_response_fixed (clean_response x) hs hfj hfen

/-- C9 counterexample: the claim as stated fails when the fenced payload
itself contains a fence marker.  Wrapping the inner text
`{a``` b}` as a JSON-tagged fenced block and cleaning yields `{a` — the
text before the inner fence — not the whitespace-trimmed inner text. -/
theorem c9_clean_roundtrip_counterexample :
    clean_response ("```json\n".toList ++
      ("\x7ba``` b\x7d".toList ++ "\n```".toList)) = "\x7ba".toList ∧
    "\x7ba".toList ≠ pyStrip ("\x7ba``` b\x7d".toList) := by
  constructor
  · rfl
  · decide

/-- C9 (amended): for every inner text not containing the fence marker
``` as a substring, cleaning the JSON-tagged fenced wrapping returns
exactly the inner text with surrounding whitespace trimmed.  Inner texts
with isolated or doubled backticks are included: the newline boundaries of
the wrapping prevent them from merging with either fence. -/
theorem c9_clean_roundtrip_fence_free (s : List Char)
    (hs : hasSub fence s = false) :
    clean_response (fenceJson ++ ('\n' :: (s ++ ('\n' :: fence)))) =
      pyStrip s := by
  have hbt_space : isSpaceChar btChar = false := by decide
  have hfree : hasSub fence (('\n' :: s) ++ ['\n']) = false :=
    hasSub_fence_pad s hs
  have hdnl : (('\n' : Char) = btChar) → False := by decide
  have hcondF : ∀ x y, ('\n' :: s) ++ ['\n'] = x ++ y → y ≠ [] →
      fence.isPrefixOf (y ++ fence) = false := by
    intro x y hxy hy
    cases hval : fence.isPrefixOf (y ++ fence) with
    | false => rfl
    | true =>
      exfalso
      exact fence_boundary_no_match ('\n' :: s) '\n' hdnl hfree x y _ hxy hy
        (eq_append_drop_of_isPrefixOf hval)
  have hcondJ : ∀ x y, ('\n' :: s) ++ ['\n'] = x ++ y → y ≠ [] →
      fenceJson.isPrefixOf (y ++ fence) = false := by
    intro x y hxy hy
    cases hval : fenceJson.isPrefixOf (y ++ fence) with
    | false => rfl
    | true =>
      exfalso
      have heq := eq_append_drop_of_isPrefixOf hval
      rw [fenceJson_decomp, List.append_assoc] at heq
      exact fence_boundary_no_match ('\n' :: s) '\n' hdnl hfree x y _ hxy hy heq
  have hstrip : pyStrip (fenceJson ++ ('\n' :: (s ++ ('\n' :: fence)))) =
      fenceJson ++ ('\n' :: (s ++ ('\n' :: fence))) := by
    have hx : fenceJson ++ ('\n' :: (s ++ ('\n' :: fence))) =
        btChar :: ((btChar :: btChar :: 'j' :: 's' :: 'o' :: 'n' :: '\n' ::
          (s ++ ('\n' :: btChar :: btChar :: []))) ++ [btChar]) := by
      rw [fenceJson_cons, fence_cons]
      simp
    rw [hx, pyStrip_no_space_ends hbt_space hbt_space]
  have hsplit1 : splitFirst fenceJson
      (fenceJson ++ ('\n' :: (s ++ ('\n' :: fence)))) =
      ([], some ('\n' :: (s ++ ('\n' :: fence)))) :=
    splitFirst_sep_append fenceJson (by decide) _
  have hT : ('\n' :: (s ++ ('\n' :: fence))) =
      (('\n' :: s) ++ ['\n']) ++ fence := by simp
  have hsplit2 : splitFirst fenceJson ('\n' :: (s ++ ('\n' :: fence))) =
      ((('\n' :: s) ++ ['\n']) ++ fence, none) := by
    rw [hT, splitFirst_append_no_match fenceJson _ fence hcondJ]
    rw [show splitFirst fenceJson fence = (fence, none) from rfl]
  have hsplit3 : splitFirst fence ((('\n' :: s) ++ ['\n']) ++ fence) =
      (('\n' :: s) ++ ['\n'], some []) := by
    rw [splitFirst_append_no_match fence _ fence hcondF]
    rw [show splitFirst fence fence = ([], some []) from rfl]
    simp
  rw [clean_response_eq_of_fenceJson (by rw [hstrip, hsplit1])]
  rw [show (splitFirst fenceJson ('\n' :: (s ++ ('\n' :: fence)))).1 =
      (('\n' :: s) ++ ['\n']) ++ fence by rw [hsplit2]]
  rw [show (splitFirst fence ((('\n' :: s) ++ ['\n']) ++ fence)).1 =
      ('\n' :: s) ++ ['\n'] by rw [hsplit3]]
  rw [show ('\n' :: s) ++ ['\n'] = '\n' :: (s ++ ['\n']) from rfl]
  rw [pyStrip_cons_space (by decide), pyStrip_append_space (by decide)]

/-- C9 witness: a concrete JSON object payload containing an isolated
backtick but no fence marker. -/
theorem c9_clean_roundtrip_fence_free_witness :
    hasSub fence "\x7b\"a\": \"x ` y\"\x7d".toList = false ∧
    clean_response (fenceJson ++
      ('\n' :: ("\x7b\"a\": \"x ` y\"\x7d".toList ++ ('\n' :: fence)))) =
      pyStrip ("\x7b\"a\": \"x ` y\"\x7d".toList) :=
  ⟨by decide, c9_clean_roundtrip_fence_free _ (by decide)⟩

/-- C10 counterexample: a validation result carrying
`isValid: "false"` — a JSON string, truthy in Python — is treated as valid:
the run returns Success on the spot with zero healing attempts and no Heal
call, where the claim requires any value other than `true` to be treated as
invalid and to trigger a healing attempt. -/
theorem c10_truthy_isValid_counterexample :
    (process_with_healing oracleTruthyIsValid 3).1 =
      .ok (successDict (.str "Q") sampleAnalysis
        (.obj [("isValid", .str "false")]) 0) ∧
    (process_with_healing oracleTruthyIsValid 3).2.healCalls = 0 ∧
    (process_with_healing oracleTruthyIsValid 3).2.healing_attempts = 0 ∧
    (JsonValue.str "false") ≠ (JsonValue.bool true) := by
  refine ⟨rfl, rfl, rfl, ?_⟩
  simp

/-- C10 (amended): the orchestrator reads model-produced fields with
Python truthiness and permissive defaults, universally over all oracles
and loop states.  In order: any falsy `isValid` value triggers a healing
attempt; any truthy `isValid` value — not only `true` — yields Success; a
validation object missing the `isValid` key triggers a healing attempt
(the lookup defaults to false); each of the six falsy JSON shapes —
`false`, `null`, `0`, the empty string, the empty array, the empty object
— is falsy; a healing result missing `requires_human_review`,
`requires_reanalysis` and `healed_query` continues the loop with the flags
defaulted to false and the current query set to null, raising no error.
The closing conjuncts evaluate full runs: a missing `isValid` leads to a
healing attempt, a truthy string `"false"` leads to Success with zero
attempts, and an empty healing object continues with a null query. -/
theorem c10_permissive_defaults :
    (∀ (o : Oracle) (m : Nat) (s : LoopState) (q : String)
       (vf : List (String × JsonValue)) (v : JsonValue),
       s.current_analysis.isNone = false → o.generate s.generateCalls = .ok q →
       o.validate s.validateCalls = .ok (.obj vf) →
       objGetD vf "isValid" (.bool false) = v → v.truthy = false →
       loopBody o m s = healStep o m (.obj vf) { s with
         current_query := .str q
         generateCalls := s.generateCalls + 1
         validateCalls := s.validateCalls + 1
         healing_attempts := s.healing_attempts + 1 }) ∧
    (∀ (o : Oracle) (m : Nat) (s : LoopState) (q : String)
       (vf : List (String × JsonValue)) (v : JsonValue),
       s.current_analysis.isNone = false → o.generate s.generateCalls = .ok q →
       o.validate s.validateCalls = .ok (.obj vf) →
       objGetD vf "isValid" (.bool false) = v → v.truthy = true →
       loopBody o m s = .done (.ok (successDict (.str q) s.current_analysis
         (.obj vf) s.healing_attempts)) { s with
         current_query := .str q
         generateCalls := s.generateCalls + 1
         validateCalls := s.validateCalls + 1 }) ∧
    (∀ (o : Oracle) (m : Nat) (s : LoopState) (q : String)
       (vf : List (String × JsonValue)),
       s.current_analysis.isNone = false → o.generate s.generateCalls = .ok q →
       o.validate s.validateCalls = .ok (.obj vf) →
       (∀ p ∈ vf, p.1 ≠ "isValid") →
       loopBody o m s = healStep o m (.obj vf) { s with
         current_query := .str q
         generateCalls := s.generateCalls + 1
         validateCalls := s.validateCalls + 1
         healing_attempts := s.healing_attempts + 1 }) ∧
    ((JsonValue.bool false).truthy = false ∧ JsonValue.null.truthy = false ∧
     (JsonValue.num 0).truthy = false ∧ (JsonValue.str "").truthy = false ∧
     (JsonValue.arr []).truthy = false ∧ (JsonValue.obj []).truthy = false) ∧
    (∀ (o : Oracle) (m : Nat) (validation : JsonValue) (s : LoopState)
       (fields : List (String × JsonValue)),
       o.heal s.healCalls = .ok (.obj fields) →
       (∀ p ∈ fields, p.1 ≠ "requires_human_review") →
       (∀ p ∈ fields, p.1 ≠ "requires_reanalysis") →
       (∀ p ∈ fields, p.1 ≠ "healed_query") →
       healStep o m validation s = .cont { s with
         healCalls := s.healCalls + 1
         current_query := JsonValue.null }) ∧
    process_with_healing oracleMissingIsValid 3 =
      (.ok (humanReviewDict (.obj [("issues", .arr [])]) 1 (.str "N")),
       ⟨1, sampleAnalysis, .str "Q", 1, 1, 1, 1⟩) ∧
    process_with_healing oracleTruthyIsValid 3 =
      (.ok (successDict (.str "Q") sampleAnalysis
        (.obj [("isValid", .str "false")]) 0),
       ⟨0, sampleAnalysis, .str "Q", 1, 1, 1, 0⟩) ∧
    loopBody oracleEmptyHeal 3 ⟨0, sampleAnalysis, .null, 1, 0, 0, 0⟩ =
      .cont ⟨1, sampleAnalysis, .null, 1, 1, 1, 1⟩ := by
  refine ⟨?_, ?_, ?_, ⟨rfl, rfl, rfl, rfl, rfl, rfl⟩, ?_, rfl, rfl, rfl⟩
  · intro o m s q vf v hA hg hv hvg hfalsy
    unfold loopBody afterAnalysis validateStep
    dsimp only
    rw [hA, hg, hv]
    simp only [hvg, hfalsy]
    rfl
  · intro o m s q vf v hA hg hv hvg htruthy
    unfold loopBody afterAnalysis validateStep
    dsimp only
    rw [hA, hg, hv]
    simp only [hvg, htruthy]
    rfl
  · intro o m s q vf hA hg hv hmiss
    have hget : objGetD vf "isValid" (.bool false) = .bool false :=
      objGetD_missing_key vf "isValid" (.bool false) hmiss
    unfold loopBody afterAnalysis validateStep
    dsimp only
    rw [hA, hg, hv]
    simp only [hget]
    rfl
  · intro o m validation s fields hh hm1 hm2 hm3
    have h1 : objGetD fields "requires_human_review" (.bool false) = .bool false :=
      objGetD_missing_key fields _ _ hm1
    have h2 : objGetD fields "requires_reanalysis" (.bool false) = .bool false :=
      objGetD_missing_key fields _ _ hm2
    have h3 : objGetD fields "healed_query" JsonValue.null = .null :=
      objGetD_missing_key fields _ _ hm3
    unfold healStep
    rw [hh]
    dsimp only
    simp only [h1, h2, h3]
    rfl

/-- C10 witness: the universal facts applied at concrete states — a falsy
`isValid`, the truthy string `"false"`, a validation object with no
`isValid` key, and an empty healing object. -/
theorem c10_permissive_defaults_witness :
    loopBody oracleAlwaysInvalid 3 ⟨0, sampleAnalysis, .null, 1, 0, 0, 0⟩ =
      healStep oracleAlwaysInvalid 3 invalidVal
        ⟨1, sampleAnalysis, .str "SELECT 1", 1, 1, 1, 0⟩ ∧
    loopBody oracleTruthyIsValid 3 ⟨0, sampleAnalysis, .null, 1, 0, 0, 0⟩ =
      .done (.ok (successDict (.str "Q") sampleAnalysis
        (.obj [("isValid", .str "false")]) 0))
        ⟨0, sampleAnalysis, .str "Q", 1, 1, 1, 0⟩ ∧
    loopBody oracleMissingIsValid 3 ⟨0, sampleAnalysis, .null, 1, 0, 0, 0⟩ =
      healStep oracleMissingIsValid 3 (.obj [("issues", .arr [])])
        ⟨1, sampleAnalysis, .str "Q", 1, 1, 1, 0⟩ ∧
    healStep oracleEmptyHeal 3 invalidVal
      ⟨1, sampleAnalysis, .str "Q", 1, 1, 1, 0⟩ =
      .cont ⟨1, sampleAnalysis, .null, 1, 1, 1, 1⟩ :=
  ⟨c10_permissive_defaults.1 oracleAlwaysInvalid 3
     ⟨0, sampleAnalysis, .null, 1, 0, 0, 0⟩
     "SELECT 1" [("isValid", .bool false)] (.bool false) rfl rfl rfl rfl rfl,
   c10_permissive_defaults.2.1 oracleTruthyIsValid 3
     ⟨0, sampleAnalysis, .null, 1, 0, 0, 0⟩
     "Q" [("isValid", .str "false")] (.str "false") rfl rfl rfl rfl (by decide),
   c10_permissive_defaults.2.2.1 oracleMissingIsValid 3
     ⟨0, sampleAnalysis, .null, 1, 0, 0, 0⟩
     "Q" [("issues", .arr [])] rfl rfl rfl (by decide),
   c10_permissive_defaults.2.2.2.2.1 oracleEmptyHeal 3 invalidVal
     ⟨1, sampleAnalysis, .str "Q", 1, 1, 1, 0⟩ [] rfl
     (by decide) (by decide) (by decide)⟩

end SageAi
